import Mathlib

/-!
Verification of the splink execution and analysis engine against its source.

Each Python function that the claims touch is shallowly embedded as a Lean
definition translated from the source file named in its doc comment.
Machine floats are modelled as exact rationals or reals; Python exceptions
are modelled with `Except`.
-/

namespace Splink

/-! ### misc.py -/

/-- The three values of the `link_type` setting accepted by
`calculate_cartesian` (src/splink/misc.py).  Any other string falls through
to the final `ValueError`, modelled by the `other` constructor. -/
inductive LinkType where
  | link_only
  | dedupe_only
  | link_and_dedupe
  | other
deriving DecidableEq

/-- The Python exceptions raised by the embedded code. -/
inductive PyError where
  | valueError
  | indexError
deriving DecidableEq

/-- Embedding of `calculate_cartesian(df_rows, link_type)`
(src/splink/misc.py lines 95-127).  `df_rows` is the list of the `count`
fields of the input record dicts; Python's float division by 2 is modelled
exactly in `ℚ`.  For `dedupe_only` the source reads `n[0]` after checking
only that `len(n) > 1` does not hold, so an empty input raises `IndexError`. -/
def calculate_cartesian (df_rows : List ℚ) (link_type : LinkType) : Except PyError ℚ :=
  match link_type with
  | .link_only =>
      if df_rows.length ≤ 1 then
        .error .valueError
      else
        .ok ((df_rows.sum ^ 2 - (df_rows.map (fun m => m ^ 2)).sum) / 2)
  | .dedupe_only =>
      if 1 < df_rows.length then
        .error .valueError
      else
        match df_rows with
        | [] => .error .indexError
        | c :: _ => .ok (c * (c - 1) / 2)
  | .link_and_dedupe =>
      let total_rows := df_rows.sum
      .ok (total_rows * (total_rows - 1) / 2)
  | .other => .error .valueError

/-- C1 (amended): `calculate_cartesian` computes the cartesian size by link
type: for `dedupe_only` with a single input frame of `N` rows it returns
`N*(N-1)/2` and fails whenever more than one input frame is present; for
`link_only` it returns `((sum of counts)^2 - (sum of squared counts))/2` and
fails whenever fewer than two input frames are present; for a single-dataset
dedupe input with `N < 2` it does not fail but returns `N*(N-1)/2`, i.e. `0`
at `N = 0` and `N = 1`. -/
theorem C1_calculate_cartesian_by_link_type :
    (∀ N : ℚ, calculate_cartesian [N] .dedupe_only = .ok (N * (N - 1) / 2)) ∧
    (∀ rows : List ℚ, 2 ≤ rows.length →
      calculate_cartesian rows .dedupe_only = .error .valueError) ∧
    (∀ rows : List ℚ, 2 ≤ rows.length →
      calculate_cartesian rows .link_only
        = .ok ((rows.sum ^ 2 - (rows.map (fun m => m ^ 2)).sum) / 2)) ∧
    (∀ rows : List ℚ, rows.length ≤ 1 →
      calculate_cartesian rows .link_only = .error .valueError) ∧
    (calculate_cartesian [0] .dedupe_only = .ok 0 ∧
      calculate_cartesian [1] .dedupe_only = .ok 0) := by
  refine ⟨?_, ?_, ?_, ?_, ?_, ?_⟩
  · intro N; simp [calculate_cartesian]
  · intro rows h
    simp only [calculate_cartesian]
    rw [if_pos (by omega)]
  · intro rows h
    simp only [calculate_cartesian]
    rw [if_neg (by omega)]
  · intro rows h
    simp only [calculate_cartesian]
    rw [if_pos h]
  · simp [calculate_cartesian]
  · norm_num [calculate_cartesian]

/-- C1 witness: the amended theorem applied at concrete inputs, including the
spec's scenario B (frames of 3 and 4 rows linked gives 12 pairs). -/
theorem C1_witness :
    calculate_cartesian [10] .dedupe_only = .ok 45 ∧
    calculate_cartesian [3, 4] .dedupe_only = .error .valueError ∧
    calculate_cartesian [3, 4] .link_only = .ok 12 ∧
    calculate_cartesian [7] .link_only = .error .valueError := by
  refine ⟨?_, ?_, ?_, ?_⟩
  · have h := C1_calculate_cartesian_by_link_type.1 10
    rw [h]; norm_num
  · exact C1_calculate_cartesian_by_link_type.2.1 [3, 4] (by decide)
  · have h := C1_calculate_cartesian_by_link_type.2.2.1 [3, 4] (by decide)
    rw [h]; norm_num
  · exact C1_calculate_cartesian_by_link_type.2.2.2.1 [7] (by decide)

/-- C1 counterexample: with a single dedupe frame of `N = 1 < 2` rows the
source does not raise any error; it returns `1*(1-1)/2 = 0`. -/
theorem C1_counterexample_no_failure_below_two_rows :
    calculate_cartesian [1] LinkType.dedupe_only = Except.ok 0 := by
  norm_num [calculate_cartesian]

/-! ### analyse_blocking.py: pre-filter cardinality estimate (C2)

`count_comparisons_from_blocking_rule_pre_filter_conditions_sqls`
(src/splink/analyse_blocking.py lines 148-245) emits a fixed four-statement
pipeline (group left, group right, inner join using the key columns, sum of
`count_l * count_r`), or a single `count(*) * count(*)` statement when the
rule has no equi-join conditions.  We give the emitted statements their
relational semantics over lists of rows and evaluate the pipeline. -/

/-- Number of rows of `l` whose key is `k` (`List.count` with the `BEq`
instance induced by decidable equality, fixed once so every statement in this
section elaborates with the same instance). -/
abbrev countKey {β : Type} [DecidableEq β] (k : β) (l : List β) : ℕ :=
  l.count k

/-- Semantics of `select keys, count(*) from T group by keys`: one output row
per distinct key value, carrying the number of input rows with that value.
SQL leaves the output order unspecified; we fix the order `List.dedup` gives. -/
def sqlGroupByCount {κ : Type} [DecidableEq κ] (keys : List κ) : List (κ × ℕ) :=
  keys.dedup.map (fun k => (k, countKey k keys))

/-- Semantics of `inner join ... using (key columns)` between two grouped
tables: every pair of one left and one right row whose key values coincide. -/
def sqlInnerJoinUsing {κ : Type} [DecidableEq κ] (ls rs : List (κ × ℕ)) :
    List (κ × ℕ × ℕ) :=
  ls.flatMap (fun p => (rs.filter (fun q => decide (q.1 = p.1))).map
    (fun q => (p.1, p.2, q.2)))

/-- The key tuple `(key_0, ..., key_n)` that the left-hand
`select l_key as key_i` list extracts from row `r`, for equi-join conditions
`join_conditions = [(l_key, r_key), ...]` whose key expressions are modelled
by their denotations `α → κ`. -/
def keyTupleL {α κ : Type} (join_conditions : List ((α → κ) × (α → κ)))
    (r : α) : List κ :=
  join_conditions.map (fun jc => jc.1 r)

/-- The key tuple the right-hand `select r_key as key_i` list extracts from
row `r`. -/
def keyTupleR {α κ : Type} (join_conditions : List ((α → κ) × (α → κ)))
    (r : α) : List κ :=
  join_conditions.map (fun jc => jc.2 r)

/-- Result of running the statement sequence produced by
`count_comparisons_from_blocking_rule_pre_filter_conditions_sqls`
(src/splink/analyse_blocking.py lines 148-245).  `L` and `R` are the rows of
the left and right input tables (both sides are `__splink__df_concat` unless
the linker is two-dataset link-only, in which case they are the two raw
inputs).  With no equi-join conditions the single emitted statement computes
`count(*) * count(*)`; otherwise the four emitted statements group each side
by its key tuple, inner-join the grouped tables on the key columns, and sum
`count_l * count_r`. -/
def count_comparisons_pre_filter_result {α κ : Type} [DecidableEq κ]
    (join_conditions : List ((α → κ) × (α → κ))) (L R : List α) : ℕ :=
  if join_conditions.isEmpty then L.length * R.length
  else
    let grouped_l := sqlGroupByCount (L.map (keyTupleL join_conditions))
    let grouped_r := sqlGroupByCount (R.map (keyTupleR join_conditions))
    ((sqlInnerJoinUsing grouped_l grouped_r).map (fun t => t.2.1 * t.2.2)).sum

/-- Filtering a grouped table down to one key picks out exactly the group of
that key when present, and nothing otherwise. -/
theorem sqlGroupByCount_filter {κ : Type} [DecidableEq κ] (ks : List κ) (k : κ) :
    (sqlGroupByCount ks).filter (fun q => decide (q.1 = k))
      = if k ∈ ks then [(k, countKey k ks)] else [] := by
  unfold sqlGroupByCount
  rw [List.filter_map]
  have hcomp :
      ((fun q : κ × ℕ => decide (q.1 = k)) ∘ fun k₀ => (k₀, countKey k₀ ks))
        = fun k₀ => decide (k₀ = k) := rfl
  rw [hcomp, List.filter_eq, List.count_dedup]
  by_cases hk : k ∈ ks
  · simp [hk]
  · simp [hk]

/-- Summing `count_l * count_r` over the inner join of the two grouped tables
gives, for each distinct left key, `count_l` times the right count of the key
when the key occurs on the right, and nothing otherwise. -/
theorem sqlInnerJoin_grouped_sum {κ : Type} [DecidableEq κ]
    (dl : List κ) (cntL : κ → ℕ) (Rkeys : List κ) :
    (((dl.map (fun k => (k, cntL k))).flatMap
        (fun p => ((sqlGroupByCount Rkeys).filter (fun q => decide (q.1 = p.1))).map
          (fun q => (p.1, p.2, q.2)))).map (fun t => t.2.1 * t.2.2)).sum
      = (dl.map (fun k => cntL k * (if k ∈ Rkeys then countKey k Rkeys else 0))).sum := by
  induction dl with
  | nil => simp
  | cons k rest ih =>
      rw [List.map_cons, List.flatMap_cons, List.map_append, List.sum_append, ih]
      rw [sqlGroupByCount_filter]
      by_cases hk : k ∈ Rkeys
      · simp [hk]
      · simp [hk]

/-- Discarding the zero summands: summing `g k * (if k ∈ B then h k else 0)`
over a list equals summing `g k * h k` over the sublist of keys in `B`. -/
theorem sum_ite_mem {κ : Type} [DecidableEq κ] (l : List κ) (B : List κ)
    (g h : κ → ℕ) :
    (l.map (fun k => g k * (if k ∈ B then h k else 0))).sum
      = ((l.filter (fun k => decide (k ∈ B))).map (fun k => g k * h k)).sum := by
  induction l with
  | nil => simp
  | cons k rest ih =>
      by_cases hk : k ∈ B
      · simp only [List.map_cons, List.sum_cons, if_pos hk, ih,
          List.filter_cons, decide_eq_true hk]
        simp
      · simp only [List.map_cons, List.sum_cons, if_neg hk, ih,
          List.filter_cons]
        simp [hk]

/-- A list sum over the deduplicated keys present on both sides equals the
finset sum over the intersection of the two key sets. -/
theorem sum_filter_dedup_eq_finset_sum {κ : Type} [DecidableEq κ]
    (A B : List κ) (f : κ → ℕ) :
    (((A.dedup.filter (fun k => decide (k ∈ B))).map f).sum)
      = ∑ k ∈ A.toFinset ∩ B.toFinset, f k := by
  have hnodup : (A.dedup.filter (fun k => decide (k ∈ B))).Nodup :=
    (List.nodup_dedup A).filter _
  rw [← List.sum_toFinset f hnodup]
  congr 1
  ext x
  simp [List.mem_filter, List.mem_dedup]

/-- C2: for a blocking rule with at least one equi-join key pair, the final
result of the emitted statement sequence equals the sum, over key tuples
present on both sides, of `count_l * count_r`; for a rule with zero equi-join
key pairs it is `(count of left rows) * (count of right rows)`. -/
theorem C2_pre_filter_count_estimate {α κ : Type} [DecidableEq κ]
    (join_conditions : List ((α → κ) × (α → κ))) (L R : List α) :
    (join_conditions ≠ [] →
      count_comparisons_pre_filter_result join_conditions L R
        = ∑ k ∈ (L.map (keyTupleL join_conditions)).toFinset ∩
              (R.map (keyTupleR join_conditions)).toFinset,
            countKey k (L.map (keyTupleL join_conditions)) *
              countKey k (R.map (keyTupleR join_conditions))) ∧
    (join_conditions = [] →
      count_comparisons_pre_filter_result join_conditions L R
        = L.length * R.length) := by
  constructor
  · intro hne
    unfold count_comparisons_pre_filter_result
    rw [if_neg (by simpa using hne)]
    set Lkeys := L.map (keyTupleL join_conditions) with hL
    set Rkeys := R.map (keyTupleR join_conditions) with hR
    unfold sqlInnerJoinUsing
    have hgl : sqlGroupByCount Lkeys
        = Lkeys.dedup.map (fun k => (k, countKey k Lkeys)) := rfl
    rw [hgl, sqlInnerJoin_grouped_sum Lkeys.dedup (fun k => countKey k Lkeys) Rkeys]
    rw [sum_ite_mem, sum_filter_dedup_eq_finset_sum]
  · intro he
    unfold count_comparisons_pre_filter_result
    rw [if_pos (by simp [he])]

/-- C2 witness: the spec's concrete scenario C.  A single equi-join condition
on one column; the left rows group to AB1 ↦ 2, CD2 ↦ 3 and the right rows to
AB1 ↦ 4, CD2 ↦ 1, giving the estimate 2*4 + 3*1 = 11; and with no equi-join
conditions the same inputs give 5 * 5 = 25. -/
theorem C2_witness :
    count_comparisons_pre_filter_result
        [(fun s : String => s, fun s : String => s)]
        ["AB1", "AB1", "CD2", "CD2", "CD2"]
        ["AB1", "AB1", "AB1", "AB1", "CD2"] = 11 ∧
    count_comparisons_pre_filter_result
        ([] : List ((String → String) × (String → String)))
        ["AB1", "AB1", "CD2", "CD2", "CD2"]
        ["AB1", "AB1", "AB1", "AB1", "CD2"] = 25 := by
  constructor
  · have h := (C2_pre_filter_count_estimate
      [(fun s : String => s, fun s : String => s)]
      ["AB1", "AB1", "CD2", "CD2", "CD2"]
      ["AB1", "AB1", "AB1", "AB1", "CD2"]).1 (by simp)
    rw [h]
    decide
  · have h := (C2_pre_filter_count_estimate
      ([] : List ((String → String) × (String → String)))
      ["AB1", "AB1", "CD2", "CD2", "CD2"]
      ["AB1", "AB1", "AB1", "AB1", "CD2"]).2 rfl
    rw [h]
    rfl

/-! ### analyse_blocking.py: cumulative per-rule counts (C3)

`cumulative_comparisons_generated_by_blocking_rules`
(src/splink/analyse_blocking.py lines 101-121) turns the grouped
`(match_key, row_count)` result of the blocking pipeline into one output
entry per configured rule, inserting an explicit zero for every rule index
absent from the grouped result. -/

/-- Python `list.insert(i, a)` for a non-negative index: inserts before
position `i`, appending when `i` is at or beyond the end of the list. -/
def pyInsert {β : Type} : List β → ℕ → β → List β
  | l, 0, a => a :: l
  | [], _ + 1, a => [a]
  | x :: l, n + 1, a => x :: pyInsert l n a

/-- Inserting at position zero prepends, whatever the list. -/
theorem pyInsert_zero {β : Type} (l : List β) (a : β) :
    pyInsert l 0 a = a :: l := by
  cases l <;> rfl

/-- First value paired with key `k` in an association list. -/
def lookupKey (k : ℕ) : List (ℕ × ℕ) → Option ℕ
  | [] => none
  | (k₀, v) :: rest => if k = k₀ then some v else lookupKey k rest

/-- Embedding of the per-rule output assembly of
`cumulative_comparisons_generated_by_blocking_rules`
(src/splink/analyse_blocking.py lines 101-121).  `grouped` holds the rows of
the `group by match_key ... order by cast(match_key as int) asc` statement as
`(match_key, row_count)` pairs and `rules` the configured blocking-rule texts
in order.  The source splits the frame into `br_count` and `br_keys`, and,
when there are fewer counts than rules, inserts a zero count at each rule
index missing from `br_keys` (in increasing order), then zips the counts with
the rules into the output dicts. -/
def cumulative_rule_counts (grouped : List (ℕ × ℕ)) (rules : List String) :
    List (String × ℕ) :=
  let br_count := grouped.map (fun r => r.2)
  let br_keys := grouped.map (fun r => r.1)
  let filled :=
    if br_count.length ≠ rules.length then
      ((List.range rules.length).filter (fun x : ℕ => decide (x ∉ br_keys))).foldl
        (fun acc n => pyInsert acc n 0) br_count
    else br_count
  (filled.zip rules).map (fun p => (p.2, p.1))

/-- An absent key looks up to nothing in the zip of keys and counts. -/
theorem lookupKey_zip_of_not_mem (k : ℕ) :
    ∀ (ks cs : List ℕ), k ∉ ks → lookupKey k (ks.zip cs) = none := by
  intro ks
  induction ks with
  | nil => intro cs _; cases cs <;> rfl
  | cons k₀ ks ih =>
      intro cs hk
      cases cs with
      | nil => rfl
      | cons c cs =>
          have hne : k ≠ k₀ := fun h => hk (h ▸ List.mem_cons_self k₀ ks)
          simp only [List.zip_cons_cons, lookupKey, if_neg hne]
          exact ih cs (fun h => hk (List.mem_cons_of_mem k₀ h))

/-- Zipping the first and second projections of a pair list recovers it. -/
theorem zip_proj_eq (l : List (ℕ × ℕ)) :
    (l.map (fun r => r.1)).zip (l.map (fun r => r.2)) = l := by
  induction l with
  | nil => rfl
  | cons p rest ih => simp [ih]

/-- Inserting only at positions at least `s + 1` commutes with a fixed head. -/
theorem foldl_pyInsert_cons (s : ℕ) (c : ℕ) (ms : List ℕ)
    (h : ∀ m ∈ ms, s + 1 ≤ m) :
    ∀ cs : List ℕ,
      ms.foldl (fun acc m => pyInsert acc (m - s) 0) (c :: cs)
        = c :: ms.foldl (fun acc m => pyInsert acc (m - (s + 1)) 0) cs := by
  induction ms with
  | nil => intro cs; rfl
  | cons m ms ih =>
      intro cs
      have hm : s + 1 ≤ m := h m (List.mem_cons_self m ms)
      have hsub : m - s = (m - (s + 1)) + 1 := by omega
      have hstep : pyInsert (c :: cs) (m - s) 0
          = c :: pyInsert cs (m - (s + 1)) 0 := by
        rw [hsub]; rfl
      rw [List.foldl_cons, List.foldl_cons, hstep,
        ih (fun x hx => h x (List.mem_cons_of_mem m hx))]

/-- Core correctness of the zero-insertion loop: starting from the counts of
the sorted present keys and inserting a zero at every missing index of
`[s, s+n)` in increasing order produces, at each index of the window, the
present key's count or zero. -/
theorem foldl_pyInsert_fill (n : ℕ) :
    ∀ (s : ℕ) (ks cs : List ℕ),
      cs.length = ks.length →
      ks.Pairwise (· < ·) →
      (∀ k ∈ ks, s ≤ k) →
      (∀ k ∈ ks, k < s + n) →
      ((List.range' s n).filter (fun m => decide (m ∉ ks))).foldl
          (fun acc m => pyInsert acc (m - s) 0) cs
        = (List.range' s n).map (fun i => (lookupKey i (ks.zip cs)).getD 0) := by
  induction n with
  | zero =>
      intro s ks cs hlen _ hlb hub
      have hks : ks = [] := by
        cases ks with
        | nil => rfl
        | cons k ks =>
            exact absurd (hub k (List.mem_cons_self k ks))
              (by have := hlb k (List.mem_cons_self k ks); omega)
      subst hks
      have : cs = [] := List.length_eq_zero.mp hlen
      subst this
      rfl
  | succ n ih =>
      intro s ks cs hlen hsorted hlb hub
      rw [List.range'_succ]
      by_cases hs : s ∈ ks
      · -- the window start is a present key: it must head the sorted key list
        cases ks with
        | nil => exact absurd hs (List.not_mem_nil s)
        | cons k₀ ks' =>
            have hk₀ : k₀ = s := by
              rcases List.mem_cons.mp hs with h | h
              · exact h.symm
              · have h1 : k₀ < s := (List.pairwise_cons.mp hsorted).1 s h
                have h2 : s ≤ k₀ := hlb k₀ (List.mem_cons_self k₀ ks')
                omega
            subst hk₀
            cases cs with
            | nil => exact absurd hlen (by simp)
            | cons c cs' =>
                have hlen' : cs'.length = ks'.length := by
                  simpa using hlen
                have hsorted' : ks'.Pairwise (· < ·) :=
                  (List.pairwise_cons.mp hsorted).2
                have hgt : ∀ k ∈ ks', k₀ < k :=
                  (List.pairwise_cons.mp hsorted).1
                rw [List.filter_cons]
                have hdrop : (decide (k₀ ∉ k₀ :: ks')) = false := by
                  simp
                rw [hdrop]
                simp only [Bool.false_eq_true, if_neg (by simp : ¬False)]
                have hfiltc : (List.range' (k₀ + 1) n).filter
                      (fun m => decide (m ∉ k₀ :: ks'))
                    = (List.range' (k₀ + 1) n).filter
                      (fun m => decide (m ∉ ks')) := by
                  refine List.filter_congr ?_
                  intro m hm
                  have hm1 : k₀ + 1 ≤ m := (List.mem_range'_1.mp hm).1
                  rw [decide_eq_decide]
                  constructor
                  · intro h hmem; exact h (List.mem_cons_of_mem k₀ hmem)
                  · intro h hmem
                    rcases List.mem_cons.mp hmem with h1 | h1
                    · omega
                    · exact h h1
                rw [hfiltc]
                have hge : ∀ m ∈ (List.range' (k₀ + 1) n).filter
                    (fun m => decide (m ∉ ks')), k₀ + 1 ≤ m := by
                  intro m hm
                  exact (List.mem_range'_1.mp (List.mem_of_mem_filter hm)).1
                rw [foldl_pyInsert_cons k₀ c _ hge cs']
                have := ih (k₀ + 1) ks' cs' hlen' hsorted'
                  (fun k hk => hgt k hk)
                  (fun k hk => by have := hub k (List.mem_cons_of_mem k₀ hk); omega)
                rw [this]
                rw [List.map_cons]
                congr 1
                · simp [lookupKey]
                · refine List.map_congr_left ?_
                  intro i hi
                  have hi1 : k₀ + 1 ≤ i := (List.mem_range'_1.mp hi).1
                  have : lookupKey i ((k₀ :: ks').zip (c :: cs'))
                      = lookupKey i (ks'.zip cs') := by
                    simp only [List.zip_cons_cons, lookupKey]
                    rw [if_neg (by omega)]
                    rfl
                  rw [this]
      · -- the window start is a missing index: a zero is inserted at its slot
        rw [List.filter_cons]
        have hkeep : (decide (s ∉ ks)) = true := by simp [hs]
        rw [hkeep]
        simp only [if_pos trivial]
        rw [List.foldl_cons]
        have hins : pyInsert cs (s - s) 0 = 0 :: cs := by
          rw [Nat.sub_self, pyInsert_zero]
        rw [hins]
        have hge : ∀ m ∈ (List.range' (s + 1) n).filter
            (fun m => decide (m ∉ ks)), s + 1 ≤ m := by
          intro m hm
          exact (List.mem_range'_1.mp (List.mem_of_mem_filter hm)).1
        rw [foldl_pyInsert_cons s 0 _ hge cs]
        have := ih (s + 1) ks cs hlen hsorted
          (fun k hk => by
            have h1 := hlb k hk
            have : k ≠ s := fun h => hs (h ▸ hk)
            omega)
          (fun k hk => by have := hub k hk; omega)
        rw [this]
        rw [List.map_cons]
        congr 1
        rw [lookupKey_zip_of_not_mem s ks cs hs]
        rfl

/-- Element access through the swap-projected zip of a count list and the
rule list. -/
theorem zip_swap_getD :
    ∀ (xs : List ℕ) (rs : List String) (i : ℕ), i < xs.length → i < rs.length →
      ((xs.zip rs).map (fun p => (p.2, p.1))).getD i ("", 0)
        = (rs.getD i "", xs.getD i 0) := by
  intro xs
  induction xs with
  | nil => intro rs i h _; exact absurd h (by simp)
  | cons x xs ih =>
      intro rs i h1 h2
      cases rs with
      | nil => exact absurd h2 (by simp)
      | cons r rs =>
          cases i with
          | zero => rfl
          | succ i =>
              simp only [List.zip_cons_cons, List.map_cons, List.getD_cons_succ]
              exact ih rs i (by simpa using h1) (by simpa using h2)

/-- Element access through a mapped index range. -/
theorem getD_map_range (f : ℕ → ℕ) (n i : ℕ) (hi : i < n) :
    ((List.range n).map f).getD i 0 = f i := by
  rw [List.getD_eq_getElem?_getD, List.getElem?_map, List.getElem?_range hi]
  rfl

/-- A key absent from the first projections of a pair list looks up to
nothing. -/
theorem lookupKey_eq_none (k : ℕ) (l : List (ℕ × ℕ))
    (h : k ∉ l.map (fun r => r.1)) : lookupKey k l = none := by
  rw [← zip_proj_eq l]
  exact lookupKey_zip_of_not_mem k _ _ h

/-- The zero-fill step of `cumulative_rule_counts`, in both its branches,
produces the association-list lookup of each rule index over the whole index
range. -/
theorem cumulative_filled_eq (grouped : List (ℕ × ℕ)) (n : ℕ)
    (hsorted : (grouped.map (fun r => r.1)).Pairwise (· < ·))
    (hbound : ∀ p ∈ grouped, p.1 < n) :
    (if (grouped.map (fun r => r.2)).length ≠ n then
        ((List.range n).filter
            (fun x : ℕ => decide (x ∉ grouped.map (fun r => r.1)))).foldl
          (fun acc m => pyInsert acc m 0) (grouped.map (fun r => r.2))
      else grouped.map (fun r => r.2))
      = (List.range n).map (fun i => (lookupKey i grouped).getD 0) := by
  set ks := grouped.map (fun r => r.1) with hks
  set cs := grouped.map (fun r => r.2) with hcs
  have hkub : ∀ k ∈ ks, k < 0 + n := by
    intro k hk
    rcases List.mem_map.mp hk with ⟨p, hp, hpk⟩
    have := hbound p hp
    omega
  have hfold := foldl_pyInsert_fill n 0 ks cs
    (by rw [hks, hcs]; simp) hsorted (fun k _ => Nat.zero_le k) hkub
  simp only [Nat.sub_zero] at hfold
  rw [← List.range_eq_range'] at hfold
  rw [zip_proj_eq] at hfold
  by_cases hlen : cs.length = n
  · rw [if_neg (by omega)]
    have hnodup : ks.Nodup := hsorted.imp (fun h => Nat.ne_of_lt h)
    have hkslen : ks.length = n := by
      rw [hks, List.length_map, ← hlen, hcs, List.length_map]
    have hcover : ∀ m, m < n → m ∈ ks := by
      intro m hm
      have hsub : ks.toFinset ⊆ Finset.range n := by
        intro x hx
        rw [List.mem_toFinset] at hx
        rw [Finset.mem_range]
        have := hkub x hx
        omega
      have hcard : (Finset.range n).card ≤ ks.toFinset.card := by
        rw [Finset.card_range, List.toFinset_card_of_nodup hnodup, hkslen]
      have heq := Finset.eq_of_subset_of_card_le hsub hcard
      have : m ∈ ks.toFinset := by
        rw [heq, Finset.mem_range]; exact hm
      exact List.mem_toFinset.mp this
    have hfilt : (List.range n).filter (fun x : ℕ => decide (x ∉ ks)) = [] := by
      rw [List.filter_eq_nil_iff]
      intro m hm
      have : m ∈ ks := hcover m (List.mem_range.mp hm)
      simp [this]
    rw [hfilt] at hfold
    exact hfold
  · rw [if_pos (by omega)]
    exact hfold

/-- C3: the per-rule count output of
`cumulative_comparisons_generated_by_blocking_rules` has exactly one entry
per configured rule, in rule order, each carrying the grouped count of its
rule index; every rule index absent from the grouped `match_key` result
appears with row count exactly 0. -/
theorem C3_cumulative_counts_entry_per_rule (grouped : List (ℕ × ℕ))
    (rules : List String)
    (hsorted : (grouped.map (fun r => r.1)).Pairwise (· < ·))
    (hbound : ∀ p ∈ grouped, p.1 < rules.length) :
    (cumulative_rule_counts grouped rules).length = rules.length ∧
    (∀ i, i < rules.length →
      (cumulative_rule_counts grouped rules).getD i ("", 0)
        = (rules.getD i "", (lookupKey i grouped).getD 0)) ∧
    (∀ i, i < rules.length → i ∉ grouped.map (fun r => r.1) →
      ((cumulative_rule_counts grouped rules).getD i ("", 0)).2 = 0) := by
  have hmain : cumulative_rule_counts grouped rules
      = (((List.range rules.length).map
            (fun i => (lookupKey i grouped).getD 0)).zip rules).map
          (fun p => (p.2, p.1)) := by
    show (let br_count := grouped.map (fun r => r.2)
      let br_keys := grouped.map (fun r => r.1)
      let filled :=
        if br_count.length ≠ rules.length then
          ((List.range rules.length).filter
              (fun x : ℕ => decide (x ∉ br_keys))).foldl
            (fun acc n => pyInsert acc n 0) br_count
        else br_count
      (filled.zip rules).map (fun p => (p.2, p.1))) = _
    simp only []
    rw [cumulative_filled_eq grouped rules.length hsorted hbound]
  have hlen : (cumulative_rule_counts grouped rules).length = rules.length := by
    rw [hmain, List.length_map, List.length_zip, List.length_map,
      List.length_range, Nat.min_self]
  refine ⟨hlen, ?_, ?_⟩
  · intro i hi
    rw [hmain, zip_swap_getD _ _ _ (by simpa using hi) hi,
      getD_map_range _ _ _ hi]
  · intro i hi habs
    rw [hmain, zip_swap_getD _ _ _ (by simpa using hi) hi,
      getD_map_range _ _ _ hi, lookupKey_eq_none i grouped habs]
    rfl

/-- C3 witness: four configured rules, grouped counts only for match keys 1
and 3; the output has four entries, in rule order, and the absent indices 0
and 2 carry a zero count. -/
theorem C3_witness :
    (cumulative_rule_counts [(1, 5), (3, 7)] ["a", "b", "c", "d"]).length = 4 ∧
    (cumulative_rule_counts [(1, 5), (3, 7)] ["a", "b", "c", "d"]).getD 1 ("", 0)
        = ("b", 5) ∧
    ((cumulative_rule_counts [(1, 5), (3, 7)] ["a", "b", "c", "d"]).getD 2
        ("", 0)).2 = 0 := by
  have H := C3_cumulative_counts_entry_per_rule [(1, 5), (3, 7)]
    ["a", "b", "c", "d"]
    (by norm_num [List.pairwise_cons]) (by decide)
  refine ⟨?_, ?_, ?_⟩
  · rw [H.1]; rfl
  · rw [H.2.1 1 (by norm_num)]; rfl
  · exact H.2.2 2 (by norm_num) (by decide)

/-! ### misc.py / waterfall_chart.py: score decomposition (C4, C5, C9)

Probabilities, Bayes factors and match weights are Python floats; we model
them as reals, with `float('inf')` as an explicit extra value and Python
`math` domain errors as `Except` errors. -/

/-- A Python float as used by the waterfall code: a finite real or
`float('inf')`. -/
inductive XFloat where
  | fin (x : ℝ)
  | inf

/-- Embedding of `prob_to_bayes_factor(prob)` (src/splink/misc.py lines
15-16): `prob / (1 - prob)` unless `prob == 1`, in which case infinity. -/
noncomputable def prob_to_bayes_factor (prob : ℝ) : XFloat :=
  if prob = 1 then .inf else .fin (prob / (1 - prob))

/-- Python's `math.log2`: a `ValueError` (math domain error) on a
non-positive finite argument, infinity at infinity, and the base-2
logarithm otherwise. -/
noncomputable def math_log2 : XFloat → Except PyError XFloat
  | .inf => .ok .inf
  | .fin x => if x ≤ 0 then .error .valueError else .ok (.fin (Real.logb 2 x))

/-- One waterfall chart record: the dict assembled in
src/splink/waterfall_chart.py.  `bar_sort_order` is absent until
`record_to_waterfall_data` assigns it, hence the `Option`. -/
structure WaterfallRecord where
  column_name : String
  label_for_charts : String
  sql_condition : Option String
  log2_bayes_factor : XFloat
  bayes_factor : XFloat
  comparison_vector_value : Option ℤ
  m_probability : Option ℝ
  u_probability : Option ℝ
  bayes_factor_description : Option String
  value_l : String
  value_r : String
  term_frequency_adjustment : Option Bool
  bar_sort_order : Option ℕ := none

/-- Embedding of `_prior_record(settings_obj)` (src/splink/waterfall_chart.py
lines 7-22).  `math.log2` can raise, so the result is an `Except`. -/
noncomputable def _prior_record (proportion_of_matches : ℝ) :
    Except PyError WaterfallRecord :=
  let bf := prob_to_bayes_factor proportion_of_matches
  (math_log2 bf).map (fun lg =>
    { column_name := "Prior"
      label_for_charts := "Starting match weight (prior)"
      sql_condition := none
      log2_bayes_factor := lg
      bayes_factor := bf
      comparison_vector_value := none
      m_probability := none
      u_probability := none
      bayes_factor_description := none
      value_l := ""
      value_r := ""
      term_frequency_adjustment := none })

/-- Embedding of `_final_score_record(record_as_dict)`
(src/splink/waterfall_chart.py lines 25-39): the record's `match_weight`
and `2 ** match_weight`. -/
noncomputable def _final_score_record (match_weight : ℝ) : WaterfallRecord :=
  { column_name := "Final score"
    label_for_charts := "Final score"
    sql_condition := none
    log2_bayes_factor := .fin match_weight
    bayes_factor := .fin ((2 : ℝ) ^ match_weight)
    comparison_vector_value := none
    m_probability := none
    u_probability := none
    bayes_factor_description := none
    value_l := ""
    value_r := ""
    term_frequency_adjustment := none }

/-- The attributes of a comparison level read by `_comparison_records`.  The
comparison-definition classes are external collaborators of the analysed
sources, so their attributes are modelled as plain data; the `str()` of the
float `tf_adjustment_weight` (used only inside a label) is carried as
text. -/
structure ComparisonLevel where
  label_for_charts : String
  sql_condition : Option String
  log2_bayes_factor : XFloat
  bayes_factor : XFloat
  m_probability : Option ℝ
  u_probability : Option ℝ
  bayes_factor_description : Option String
  has_tf_adjustments : Bool
  tf_adjustment_input_column_name : String
  tf_adjustment_weight_text : String

/-- The attributes of a comparison read by the waterfall code, with the
level lookup `get_comparison_level_by_comparison_vector_value` modelled as a
function of the comparison vector value, and the input columns by their
backtick-stripped `name_l`/`name_r` lists. -/
structure Comparison where
  comparison_name : String
  gamma_column_name : String
  bf_tf_adj_column_name : String
  input_columns_l : List String
  input_columns_r : List String
  get_comparison_level_by_comparison_vector_value : ℤ → ComparisonLevel

/-- The scored row-pair dict `record_as_dict`, split by the type at which the
waterfall code reads each key: `str(...)`-rendered column values, integer
comparison-vector (gamma) values, float term-frequency Bayes factors, and
the float `match_weight`. -/
structure RecordDict where
  vals : String → String
  gammas : String → ℤ
  tf_bfs : String → ℝ
  match_weight : ℝ

/-- The comparison level `_comparison_records` selects for a record: the
level whose comparison vector value equals the record's gamma value. -/
def matchedLevel (record : RecordDict) (cc : Comparison) : ComparisonLevel :=
  cc.get_comparison_level_by_comparison_vector_value
    (record.gammas cc.gamma_column_name)

/-- Embedding of `_comparison_records(record_as_dict, comparison)`
(src/splink/waterfall_chart.py lines 42-102).  `pyFmt` abstracts Python's
two-decimal comma float formatting, which only feeds display strings.  In
the term-frequency branch the source copies the main record, overwrites the
copy's fields, sets the main record's `bayes_factor_description` to `None`,
and gives the copy the more-likely/less-likely text; `math.log2` of the
record's adjustment factor can raise, in which case nothing is returned. -/
noncomputable def _comparison_records (pyFmt : ℝ → String)
    (record : RecordDict) (cc : Comparison) :
    Except PyError (List WaterfallRecord) :=
  let cv_value := record.gammas cc.gamma_column_name
  let cl := cc.get_comparison_level_by_comparison_vector_value cv_value
  let waterfall_record : WaterfallRecord :=
    { column_name := cc.comparison_name
      label_for_charts := cl.label_for_charts
      sql_condition := cl.sql_condition
      log2_bayes_factor := cl.log2_bayes_factor
      bayes_factor := cl.bayes_factor
      comparison_vector_value := some cv_value
      m_probability := cl.m_probability
      u_probability := cl.u_probability
      bayes_factor_description := cl.bayes_factor_description
      value_l := ", ".intercalate (cc.input_columns_l.map record.vals)
      value_r := ", ".intercalate (cc.input_columns_r.map record.vals)
      term_frequency_adjustment := some false }
  if cl.has_tf_adjustments then
    let bf := record.tf_bfs cc.bf_tf_adj_column_name
    (math_log2 (.fin bf)).map (fun lg =>
      let text0 := "Term frequency adjustment on "
        ++ cl.tf_adjustment_input_column_name ++ " makes comparison "
      let text :=
        if (1 : ℝ) ≤ bf then
          text0 ++ " " ++ pyFmt bf ++ " times more likely to be a match"
        else
          text0 ++ "  " ++ pyFmt (1 / bf) ++ " times less likely to be a match"
      let waterfall_record_2 : WaterfallRecord :=
        { waterfall_record with
            column_name := "tf_" ++ cc.comparison_name
            term_frequency_adjustment := some true
            label_for_charts := "Term freq adjustment on "
              ++ cl.tf_adjustment_input_column_name ++ " with weight "
              ++ cl.tf_adjustment_weight_text
            bayes_factor := .fin bf
            log2_bayes_factor := lg
            m_probability := none
            u_probability := none
            bayes_factor_description := some text }
      [{ waterfall_record with bayes_factor_description := none },
        waterfall_record_2])
  else
    .ok [waterfall_record]

/-- The settings attributes read by `record_to_waterfall_data`. -/
structure SettingsObj where
  proportion_of_matches : ℝ
  comparisons : List Comparison

/-- The comparison loop of `record_to_waterfall_data`: each comparison's
records extend the list in configured order; an exception from any
comparison propagates. -/
noncomputable def comparisons_records (pyFmt : ℝ → String)
    (record : RecordDict) : List Comparison → Except PyError (List WaterfallRecord)
  | [] => .ok []
  | cc :: rest => do
      let recs ← _comparison_records pyFmt record cc
      let rest_recs ← comparisons_records pyFmt record rest
      .ok (recs ++ rest_recs)

/-- The `for i, rec in enumerate(waterfall_records)` loop assigning
`bar_sort_order` (src/splink/waterfall_chart.py lines 114-115), started at
index `i`. -/
def assignSortFrom (i : ℕ) : List WaterfallRecord → List WaterfallRecord
  | [] => []
  | r :: rs => { r with bar_sort_order := some i } :: assignSortFrom (i + 1) rs

/-- Embedding of `record_to_waterfall_data(record_as_dict, settings_obj)`
(src/splink/waterfall_chart.py lines 105-116): the prior record, then each
comparison's records in configured order, then the final-score record, with
`bar_sort_order` assigned by emission index from 0. -/
noncomputable def record_to_waterfall_data (pyFmt : ℝ → String)
    (record : RecordDict) (settings_obj : SettingsObj) :
    Except PyError (List WaterfallRecord) := do
  let prior ← _prior_record settings_obj.proportion_of_matches
  let comp_recs ← comparisons_records pyFmt record settings_obj.comparisons
  let waterfall_records :=
    prior :: comp_recs ++ [_final_score_record record.match_weight]
  .ok (assignSortFrom 0 waterfall_records)

/-- Evaluation of `math.log2` on a positive finite float. -/
theorem math_log2_fin_pos (x : ℝ) (hx : 0 < x) :
    math_log2 (.fin x) = .ok (.fin (Real.logb 2 x)) := by
  simp only [math_log2]
  rw [if_neg (not_le.mpr hx)]

/-- Evaluation of `math.log2` on a non-positive finite float: a domain
error. -/
theorem math_log2_fin_nonpos (x : ℝ) (hx : x ≤ 0) :
    math_log2 (.fin x) = .error .valueError := by
  simp only [math_log2]
  rw [if_pos hx]

/-- A mapped `Except` over a success is a success. -/
theorem exists_ok_of_map {γ δ : Type} (f : γ → δ) (x : Except PyError γ)
    (v : γ) (hx : x = .ok v) : ∃ w, x.map f = .ok w := by
  exact ⟨f v, by rw [hx]; rfl⟩

/-- C4 (amended): the prior record has
`log2_bayes_factor = log2(prior_probability / (1 - prior_probability))` for
every `prior_probability` in `(0,1)` — at `prior_probability = 0` the source
raises instead, since `math.log2(0)` is a domain error — and the odds (Bayes
factor) is infinite when `prior_probability = 1`. -/
theorem C4_prior_record_log2_bayes_factor :
    (∀ p : ℝ, 0 < p → p < 1 →
      (_prior_record p).map (fun r => (r.log2_bayes_factor, r.bayes_factor))
        = .ok (.fin (Real.logb 2 (p / (1 - p))), .fin (p / (1 - p)))) ∧
    (_prior_record 1).map (fun r => (r.log2_bayes_factor, r.bayes_factor))
      = .ok (.inf, .inf) := by
  constructor
  · intro p hp0 hp1
    have hne : p ≠ 1 := ne_of_lt hp1
    have hpos : 0 < p / (1 - p) := div_pos hp0 (by linarith)
    have h1 : prob_to_bayes_factor p = .fin (p / (1 - p)) := by
      unfold prob_to_bayes_factor
      rw [if_neg hne]
    simp only [_prior_record]
    rw [h1, math_log2_fin_pos _ hpos]
    rfl
  · have h1 : prob_to_bayes_factor 1 = .inf := by
      unfold prob_to_bayes_factor
      rw [if_pos rfl]
    simp only [_prior_record]
    rw [h1]
    rfl

/-- C4 witness: at `prior_probability = 1/2` the prior record carries
`log2(1) = 0` and Bayes factor `1`. -/
theorem C4_witness :
    (_prior_record (1 / 2)).map (fun r => (r.log2_bayes_factor, r.bayes_factor))
      = .ok (.fin 0, .fin 1) := by
  have h := C4_prior_record_log2_bayes_factor.1 (1 / 2) (by norm_num) (by norm_num)
  rw [h]
  have hv : (1 : ℝ) / 2 / (1 - 1 / 2) = 1 := by norm_num
  rw [hv, Real.logb_one]

/-- C4 counterexample: at `prior_probability = 0`, inside the claimed domain
`[0,1)`, the source raises a `ValueError` from `math.log2(0)` instead of
emitting a record. -/
theorem C4_counterexample_prior_zero_raises :
    _prior_record 0 = .error .valueError := by
  have h1 : prob_to_bayes_factor 0 = .fin 0 := by
    unfold prob_to_bayes_factor
    rw [if_neg (by norm_num)]
    norm_num
  simp only [_prior_record]
  rw [h1, math_log2_fin_nonpos 0 le_rfl]
  rfl

/-- With a prior probability in `(0,1]` the prior record is emitted without
raising. -/
theorem _prior_record_ok (p : ℝ) (hp0 : 0 < p) (hp1 : p ≤ 1) :
    ∃ pr, _prior_record p = .ok pr := by
  by_cases hne : p = 1
  · subst hne
    have h1 : prob_to_bayes_factor 1 = .inf := by
      unfold prob_to_bayes_factor
      rw [if_pos rfl]
    have hx : math_log2 (prob_to_bayes_factor 1) = .ok .inf := by
      rw [h1]
      rfl
    simp only [_prior_record]
    exact exists_ok_of_map _ _ _ hx
  · have hlt : p < 1 := lt_of_le_of_ne hp1 hne
    have hpos : 0 < p / (1 - p) := div_pos hp0 (by linarith)
    have h1 : prob_to_bayes_factor p = .fin (p / (1 - p)) := by
      unfold prob_to_bayes_factor
      rw [if_neg hne]
    have hx : math_log2 (prob_to_bayes_factor p)
        = .ok (.fin (Real.logb 2 (p / (1 - p)))) := by
      rw [h1, math_log2_fin_pos _ hpos]
    simp only [_prior_record]
    exact exists_ok_of_map _ _ _ hx

/-- `_comparison_records` emits exactly one record for a comparison whose
matched level has no term-frequency adjustment, and exactly two when it has
one (and its adjustment factor is in `math.log2`'s domain). -/
theorem _comparison_records_shape (pyFmt : ℝ → String) (record : RecordDict)
    (cc : Comparison)
    (hbf : (matchedLevel record cc).has_tf_adjustments = true →
      0 < record.tf_bfs cc.bf_tf_adj_column_name) :
    ∃ block, _comparison_records pyFmt record cc = .ok block ∧
      block.length
        = if (matchedLevel record cc).has_tf_adjustments then 2 else 1 := by
  unfold matchedLevel at hbf ⊢
  simp only [_comparison_records]
  by_cases h : (cc.get_comparison_level_by_comparison_vector_value
      (record.gammas cc.gamma_column_name)).has_tf_adjustments
  · have hpos := hbf h
    rw [if_pos h, if_pos h]
    rw [math_log2_fin_pos _ hpos]
    exact ⟨_, rfl, rfl⟩
  · rw [if_neg h, if_neg h]
    exact ⟨_, rfl, rfl⟩

/-- Shape of the comparison loop's output: one block per comparison, in
configured order, each block produced by `_comparison_records` for its
comparison and of length two exactly when the matched level carries a
term-frequency adjustment. -/
theorem comparisons_records_shape (pyFmt : ℝ → String) (record : RecordDict) :
    ∀ ccs : List Comparison,
      (∀ cc ∈ ccs, (matchedLevel record cc).has_tf_adjustments = true →
        0 < record.tf_bfs cc.bf_tf_adj_column_name) →
      ∃ blocks : List (List WaterfallRecord),
        comparisons_records pyFmt record ccs = .ok blocks.flatten ∧
        blocks.length = ccs.length ∧
        ∀ j (hj : j < blocks.length) (hj' : j < ccs.length),
          _comparison_records pyFmt record (ccs.get ⟨j, hj'⟩)
              = .ok (blocks.get ⟨j, hj⟩) ∧
          (blocks.get ⟨j, hj⟩).length
            = if (matchedLevel record (ccs.get ⟨j, hj'⟩)).has_tf_adjustments
              then 2 else 1 := by
  intro ccs
  induction ccs with
  | nil =>
      intro _
      exact ⟨[], rfl, rfl, fun j hj => absurd hj (by simp)⟩
  | cons cc rest ih =>
      intro hall
      obtain ⟨block, hb, hblen⟩ := _comparison_records_shape pyFmt record cc
        (hall cc (List.mem_cons_self cc rest))
      obtain ⟨blocks, hbs, hbl, hfacts⟩ :=
        ih (fun c hc => hall c (List.mem_cons_of_mem cc hc))
      refine ⟨block :: blocks, ?_, by simp [hbl], ?_⟩
      · simp only [comparisons_records]
        rw [hb, hbs]
        rfl
      · intro j hj hj'
        cases j with
        | zero => exact ⟨hb, hblen⟩
        | succ j =>
            exact hfacts j (by simpa using hj) (by simpa using hj')

/-- `assignSortFrom` preserves length. -/
theorem assignSortFrom_length (l : List WaterfallRecord) :
    ∀ k, (assignSortFrom k l).length = l.length := by
  induction l with
  | nil => intro k; rfl
  | cons r rs ih => intro k; simp [assignSortFrom, ih]

/-- Every record emerging from `assignSortFrom k` carries `k` plus its
position as its sort order. -/
theorem assignSortFrom_get (l : List WaterfallRecord) :
    ∀ (k i : ℕ) (hi : i < (assignSortFrom k l).length),
      ((assignSortFrom k l).get ⟨i, hi⟩).bar_sort_order = some (k + i) := by
  induction l with
  | nil =>
      intro k i hi
      exact absurd hi (by simp [assignSortFrom])
  | cons r rs ih =>
      intro k i hi
      cases i with
      | zero => rfl
      | succ i =>
          have h := ih (k + 1) i (by simpa [assignSortFrom] using hi)
          show ((assignSortFrom (k + 1) rs).get ⟨i, _⟩).bar_sort_order = _
          rw [h]
          congr 1
          omega

/-- C5: for every scored record and settings object (whose prior is an
admissible probability and whose term-frequency factors are in `math.log2`'s
domain), `record_to_waterfall_data` emits the prior first, then one block
per comparison in configured order — a single record, immediately followed
by one extra record exactly when the matched level carries a term-frequency
adjustment — then the final-score record last, and the `bar_sort_order`
field of every record equals its emission index starting at 0. -/
theorem C5_waterfall_emission_order (pyFmt : ℝ → String) (record : RecordDict)
    (settings_obj : SettingsObj)
    (hp0 : 0 < settings_obj.proportion_of_matches)
    (hp1 : settings_obj.proportion_of_matches ≤ 1)
    (htf : ∀ cc ∈ settings_obj.comparisons,
      (matchedLevel record cc).has_tf_adjustments = true →
        0 < record.tf_bfs cc.bf_tf_adj_column_name) :
    ∃ (prior : WaterfallRecord) (blocks : List (List WaterfallRecord)),
      _prior_record settings_obj.proportion_of_matches = .ok prior ∧
      blocks.length = settings_obj.comparisons.length ∧
      (∀ j (hj : j < blocks.length) (hj' : j < settings_obj.comparisons.length),
        _comparison_records pyFmt record (settings_obj.comparisons.get ⟨j, hj'⟩)
            = .ok (blocks.get ⟨j, hj⟩) ∧
        (blocks.get ⟨j, hj⟩).length
          = if (matchedLevel record
                (settings_obj.comparisons.get ⟨j, hj'⟩)).has_tf_adjustments
            then 2 else 1) ∧
      record_to_waterfall_data pyFmt record settings_obj
        = .ok (assignSortFrom 0
            (prior :: blocks.flatten
              ++ [_final_score_record record.match_weight])) ∧
      (∀ (out : List WaterfallRecord),
        record_to_waterfall_data pyFmt record settings_obj = .ok out →
        ∀ i (hi : i < out.length), (out.get ⟨i, hi⟩).bar_sort_order = some i) := by
  obtain ⟨prior, hpr⟩ := _prior_record_ok settings_obj.proportion_of_matches hp0 hp1
  obtain ⟨blocks, hbs, hbl, hfacts⟩ :=
    comparisons_records_shape pyFmt record settings_obj.comparisons htf
  have heq : record_to_waterfall_data pyFmt record settings_obj
      = .ok (assignSortFrom 0
          (prior :: blocks.flatten
            ++ [_final_score_record record.match_weight])) := by
    simp only [record_to_waterfall_data]
    rw [hpr, hbs]
    rfl
  refine ⟨prior, blocks, hpr, hbl, hfacts, heq, ?_⟩
  intro out hout i hi
  rw [heq] at hout
  have hout' : out = assignSortFrom 0
      (prior :: blocks.flatten ++ [_final_score_record record.match_weight]) :=
    (Except.ok.injEq _ _).mp hout.symm
  subst hout'
  have h := assignSortFrom_get _ 0 i hi
  simpa using h

/-- C9: for a comparison whose matched level carries a term-frequency
adjustment (with the record's adjustment factor in `math.log2`'s domain),
`_comparison_records` returns exactly two records; the main (non-tf) record's
`bayes_factor_description` is `None` in the output — losing the description
the level assigned it — and the descriptive text sits only on the extra
term-frequency record. -/
theorem C9_tf_adjustment_strips_main_description (pyFmt : ℝ → String)
    (record : RecordDict) (cc : Comparison)
    (htf : (matchedLevel record cc).has_tf_adjustments = true)
    (hbf : 0 < record.tf_bfs cc.bf_tf_adj_column_name) :
    ∃ r1 r2, _comparison_records pyFmt record cc = .ok [r1, r2] ∧
      r1.term_frequency_adjustment = some false ∧
      r1.bayes_factor_description = none ∧
      r1.label_for_charts = (matchedLevel record cc).label_for_charts ∧
      r2.term_frequency_adjustment = some true ∧
      (∃ text, r2.bayes_factor_description = some text) := by
  unfold matchedLevel at htf ⊢
  simp only [_comparison_records]
  rw [if_pos htf, math_log2_fin_pos _ hbf]
  exact ⟨_, _, rfl, rfl, rfl, rfl, rfl, ⟨_, rfl⟩⟩

/-! Concrete fixtures for the waterfall witnesses. -/

/-- A comparison level without a term-frequency adjustment, carrying a
description. -/
noncomputable def wfLevelPlain : ComparisonLevel :=
  { label_for_charts := "level label"
    sql_condition := some "l.c = r.c"
    log2_bayes_factor := .fin 2
    bayes_factor := .fin 4
    m_probability := some (9 / 10)
    u_probability := some (1 / 10)
    bayes_factor_description := some "original description"
    has_tf_adjustments := false
    tf_adjustment_input_column_name := "city"
    tf_adjustment_weight_text := "1.0" }

/-- The same level with a term-frequency adjustment. -/
noncomputable def wfLevelTf : ComparisonLevel :=
  { wfLevelPlain with has_tf_adjustments := true }

/-- A comparison without a term-frequency adjustment on its matched level. -/
noncomputable def wfCompPlain : Comparison :=
  { comparison_name := "first_name"
    gamma_column_name := "gamma_first_name"
    bf_tf_adj_column_name := "bf_tf_adj_first_name"
    input_columns_l := ["first_name_l"]
    input_columns_r := ["first_name_r"]
    get_comparison_level_by_comparison_vector_value := fun _ => wfLevelPlain }

/-- A comparison whose matched level carries a term-frequency adjustment. -/
noncomputable def wfCompTf : Comparison :=
  { wfCompPlain with
      comparison_name := "city"
      get_comparison_level_by_comparison_vector_value := fun _ => wfLevelTf }

/-- A scored record whose term-frequency factors are all 1. -/
noncomputable def wfRecord : RecordDict :=
  { vals := fun _ => "val"
    gammas := fun _ => 1
    tf_bfs := fun _ => 1
    match_weight := 5 / 2 }

/-- Settings with one plain and one term-frequency comparison and a prior of
one half. -/
noncomputable def wfSettings : SettingsObj :=
  { proportion_of_matches := 1 / 2
    comparisons := [wfCompPlain, wfCompTf] }

/-- A stand-in for Python's float formatting, which only feeds labels. -/
def wfFmt : ℝ → String := fun _ => "1.00"

/-- C5 witness: on the concrete fixtures the waterfall has five records —
prior, one for the plain comparison, two for the term-frequency comparison,
final score — with sort orders 0 to 4. -/
theorem C5_witness :
    ∃ out, record_to_waterfall_data wfFmt wfRecord wfSettings = .ok out ∧
      out.length = 5 ∧
      out.map (fun r => r.bar_sort_order)
        = [some 0, some 1, some 2, some 3, some 4] := by
  obtain ⟨prior, blocks, hpr, hbl, hfacts, heq, hsort⟩ :=
    C5_waterfall_emission_order wfFmt wfRecord wfSettings
      (by norm_num [wfSettings]) (by norm_num [wfSettings])
      (by intro cc hcc h; norm_num [wfRecord])
  obtain ⟨b0, b1, hb⟩ := List.length_eq_two.mp
    (by rw [hbl]; rfl)
  subst hb
  have h0 := (hfacts 0 (by norm_num) (by norm_num [wfSettings])).2
  have h1 := (hfacts 1 (by norm_num) (by norm_num [wfSettings])).2
  simp only [wfSettings, matchedLevel, wfCompPlain, wfCompTf, wfLevelPlain,
    wfLevelTf, List.get] at h0 h1
  obtain ⟨x, hx⟩ := List.length_eq_one.mp (by simpa using h0)
  obtain ⟨y, z, hyz⟩ := List.length_eq_two.mp (by simpa using h1)
  subst hx
  subst hyz
  refine ⟨_, heq, ?_, ?_⟩
  · simp [assignSortFrom]
  · simp [assignSortFrom]

/-- C9 witness: on the term-frequency fixture the two emitted records have
`None` as the main description and a descriptive text on the extra record. -/
theorem C9_witness :
    ∃ r1 r2, _comparison_records wfFmt wfRecord wfCompTf = .ok [r1, r2] ∧
      r1.term_frequency_adjustment = some false ∧
      r1.bayes_factor_description = none ∧
      (∃ text, r2.bayes_factor_description = some text) := by
  obtain ⟨r1, r2, h, h1, h2, _, _, h3⟩ :=
    C9_tf_adjustment_strips_main_description wfFmt wfRecord wfCompTf
      (by norm_num [matchedLevel, wfCompTf, wfCompPlain, wfLevelTf, wfLevelPlain])
      (by norm_num [wfRecord])
  exact ⟨r1, r2, h, h1, h2, h3⟩

/-! ### database_api.py: error wrapping (C6) -/

/-- Embedding of `DatabaseAPI.log_and_run_sql_execution`
(src/splink/database_api.py lines 44-72).  `run` is the abstract backend
`_run_sql_execution`, returning a table value or an error message; `pretty`
abstracts `sqlglot.parse_one(final_sql, read=...).sql(pretty=True)`, with
`none` standing for any exception during reformatting, in which case the
raw statement text is kept.  The second component records, in order, every
statement submitted to the backend by this call. -/
def log_and_run_sql_execution {T : Type} (run : String → Except String T)
    (pretty : String → Option String)
    (final_sql templated_name physical_name : String) :
    Except String T × List String :=
  match run final_sql with
  | .ok t => (.ok t, [final_sql])
  | .error e =>
      let shown_sql := (pretty final_sql).getD final_sql
      (.error ("Error executing the following sql for table `"
          ++ templated_name ++ "`(" ++ physical_name ++ "):\n" ++ shown_sql
          ++ "\n\nError was: " ++ e), [final_sql])

/-- C6: whenever the backend raises, the executor re-raises a single
wrapping error whose message carries the offending statement (pretty-printed
when reformatting succeeds, raw otherwise) and ends with the original
backend error message verbatim; the statement is submitted exactly once
(never retried) and a backend success is returned unmodified (never
swallowed or replaced). -/
theorem C6_backend_error_wrapped_not_retried {T : Type}
    (run : String → Except String T) (pretty : String → Option String)
    (final_sql tn pn : String) :
    ((log_and_run_sql_execution run pretty final_sql tn pn).2
        = [final_sql]) ∧
    (∀ e, run final_sql = .error e →
      (log_and_run_sql_execution run pretty final_sql tn pn).1
        = .error ("Error executing the following sql for table `" ++ tn
            ++ "`(" ++ pn ++ "):\n" ++ ((pretty final_sql).getD final_sql)
            ++ "\n\nError was: " ++ e)) ∧
    (∀ t, run final_sql = .ok t →
      (log_and_run_sql_execution run pretty final_sql tn pn).1 = .ok t) := by
  refine ⟨?_, ?_, ?_⟩
  · unfold log_and_run_sql_execution
    cases run final_sql <;> rfl
  · intro e he
    unfold log_and_run_sql_execution
    rw [he]
  · intro t ht
    unfold log_and_run_sql_execution
    rw [ht]

/-- C6 witness: a backend that fails with message `boom` on a pretty-print
failure yields the wrapped message with the raw statement and the original
message, after exactly one submission. -/
theorem C6_witness :
    (log_and_run_sql_execution (fun _ => (.error "boom" : Except String Unit))
        (fun _ => none) "select 1" "t" "t_abc123").1
      = .error ("Error executing the following sql for table `t`(t_abc123):\n"
          ++ "select 1" ++ "\n\nError was: boom") ∧
    (log_and_run_sql_execution (fun _ => (.error "boom" : Except String Unit))
        (fun _ => none) "select 1" "t" "t_abc123").2 = ["select 1"] := by
  have H := C6_backend_error_wrapped_not_retried
    (fun _ => (.error "boom" : Except String Unit)) (fun _ => none)
    "select 1" "t" "t_abc123"
  refine ⟨?_, H.1⟩
  have h := H.2.1 "boom" rfl
  rw [h]
  rfl

/-! ### database_api.py: repeated execution of identical statements (C7) -/

/-- The handle `_sql_to_splink_dataframe` returns, with the attributes it
sets. -/
structure SplinkDataFrameModel where
  templated_name : String
  physical_name : String
  sql_used_to_create : String
deriving DecidableEq

/-- Embedding of `DatabaseAPI._sql_to_splink_dataframe`
(src/splink/database_api.py lines 92-133) on the non-debug path, composed
with `execute_sql_against_backend`, `_setup_for_execute_sql` and
`_delete_table_from_database` (lines 75-90 and 221-242), which submit a
`DROP TABLE IF EXISTS` and a `CREATE TABLE ... AS` statement to the
backend.  `hashFn` abstracts the truncated sha256 hex digest of the
statement text concatenated with the per-session `_cache_uid`; `executed`
is the session's ordered log of statements submitted to the backend, which
the call extends.  As in the source (`# TODO: caching`), the `use_cache`
argument is never read and no cache is consulted. -/
def _sql_to_splink_dataframe (hashFn : String → String) (cache_uid : String)
    (sql : String) (output_tablename_templated : String) (use_cache : Bool)
    (executed : List String) : SplinkDataFrameModel × List String :=
  let hash := hashFn (sql ++ cache_uid)
  let table_name_hash := output_tablename_templated ++ "_" ++ hash
  let drop_sql := "DROP TABLE IF EXISTS " ++ table_name_hash
  let create_sql := "CREATE TABLE " ++ table_name_hash ++ " AS " ++ sql
  ({ templated_name := output_tablename_templated
     physical_name := table_name_hash
     sql_used_to_create := sql },
   executed ++ [drop_sql, create_sql])

/-- C7 (amended): executing the same statement text twice in one session
yields the same `physical_name` both times — a deterministic function of the
statement text and the session salt — but the backend executes the statement
again on the second request: no cache is consulted and the drop/create pair
is submitted once per request. -/
theorem C7_same_name_but_reexecuted (hashFn : String → String)
    (uid sql tname : String) (use_cache : Bool) (executed : List String) :
    (_sql_to_splink_dataframe hashFn uid sql tname use_cache
        executed).1.physical_name
      = (_sql_to_splink_dataframe hashFn uid sql tname use_cache
          (_sql_to_splink_dataframe hashFn uid sql tname use_cache
            executed).2).1.physical_name ∧
    (_sql_to_splink_dataframe hashFn uid sql tname use_cache
        executed).1.physical_name = tname ++ "_" ++ hashFn (sql ++ uid) ∧
    (_sql_to_splink_dataframe hashFn uid sql tname use_cache
        (_sql_to_splink_dataframe hashFn uid sql tname use_cache
          executed).2).2
      = executed
        ++ ["DROP TABLE IF EXISTS " ++ (tname ++ "_" ++ hashFn (sql ++ uid)),
            "CREATE TABLE " ++ (tname ++ "_" ++ hashFn (sql ++ uid))
              ++ " AS " ++ sql,
            "DROP TABLE IF EXISTS " ++ (tname ++ "_" ++ hashFn (sql ++ uid)),
            "CREATE TABLE " ++ (tname ++ "_" ++ hashFn (sql ++ uid))
              ++ " AS " ++ sql] := by
  refine ⟨rfl, rfl, ?_⟩
  simp [_sql_to_splink_dataframe]

/-- C7 counterexample: two identical requests produce the same physical
name, but the backend receives the `CREATE TABLE` statement twice — four
submissions in all, not a single execution with a cache hit. -/
theorem C7_counterexample_second_request_reexecutes :
    (_sql_to_splink_dataframe (fun _ => "abc123def") "42" "select 1"
        "__splink__df" true []).1.physical_name
      = (_sql_to_splink_dataframe (fun _ => "abc123def") "42" "select 1"
          "__splink__df" true
          (_sql_to_splink_dataframe (fun _ => "abc123def") "42" "select 1"
            "__splink__df" true []).2).1.physical_name ∧
    (_sql_to_splink_dataframe (fun _ => "abc123def") "42" "select 1"
        "__splink__df" true
        (_sql_to_splink_dataframe (fun _ => "abc123def") "42" "select 1"
          "__splink__df" true []).2).2
      = ["DROP TABLE IF EXISTS __splink__df_abc123def",
         "CREATE TABLE __splink__df_abc123def AS select 1",
         "DROP TABLE IF EXISTS __splink__df_abc123def",
         "CREATE TABLE __splink__df_abc123def AS select 1"] := by
  constructor <;> rfl

/-! ### database_api.py: the two pipeline execution modes (C8)

`DatabaseAPI._execute_sql_pipeline` (src/splink/database_api.py lines
135-179) either compiles the enqueued steps into one nested statement
(`pipeline._generate_pipeline`, the non-debug path) or materialises each
step individually (`pipeline._generate_pipeline_parts`, the debug path).
The `CTEPipeline` class lives outside the analysed sources, so the two
compilations are modelled from the spec (§4.1). -/

/-- An environment of materialised relations, keyed by output role name. -/
def Env (Rel : Type) : Type := String → Rel

/-- Materialising a relation under a role name. -/
def envUpdate {Rel : Type} (env : Env Rel) (role : String) (v : Rel) :
    Env Rel :=
  fun s => if s = role then v else env s

/-- One enqueued query step (the spec's Query Step): an output role and the
denotation of its statement text, which reads earlier outputs by role
name. -/
structure QueryStep (Rel : Type) where
  output_role : String
  query : Env Rel → Rel

/-- Modelled from the spec: composed-mode compilation
(`CTEPipeline._generate_pipeline`, not among the analysed sources).  All
steps are nested as CTEs into one statement: its denotation binds each
step's output under its role name in enqueue order and returns the final
step's select; only this single statement reaches the backend. -/
def generatePipeline {Rel : Type} :
    List (QueryStep Rel) → Option (Env Rel → Rel)
  | [] => none
  | [s] => some s.query
  | s :: s₂ :: rest =>
      (generatePipeline (s₂ :: rest)).map
        (fun q => fun env => q (envUpdate env s.output_role (s.query env)))

/-- Modelled from the spec: traced (debug) mode
(`CTEPipeline._generate_pipeline_parts` combined with the loop of
`_execute_sql_pipeline`, not among the analysed sources).  Each step is
executed and materialised individually, in enqueue order, and the last
step's result is returned. -/
def tracedPipeline {Rel : Type} (env : Env Rel) :
    List (QueryStep Rel) → Option Rel
  | [] => none
  | [s] => some (s.query env)
  | s :: s₂ :: rest =>
      tracedPipeline (envUpdate env s.output_role (s.query env)) (s₂ :: rest)

/-- C8: for every sequence of enqueued steps and the same seed inputs,
composed-mode execution (one nested statement) and traced-mode execution
(each step materialised individually) produce identical final results. -/
theorem C8_composed_eq_traced {Rel : Type} (steps : List (QueryStep Rel)) :
    ∀ seed : Env Rel,
      (generatePipeline steps).map (fun q => q seed)
        = tracedPipeline seed steps := by
  induction steps with
  | nil => intro seed; rfl
  | cons s rest ih =>
      intro seed
      cases rest with
      | nil => rfl
      | cons s₂ rest₂ =>
          show (Option.map (fun q => q seed)
            ((generatePipeline (s₂ :: rest₂)).map
              (fun q => fun env =>
                q (envUpdate env s.output_role (s.query env)))))
            = tracedPipeline
                (envUpdate seed s.output_role (s.query seed)) (s₂ :: rest₂)
          rw [Option.map_map]
          exact ih (envUpdate seed s.output_role (s.query seed))

/-! ### analyse_blocking.py: the deepcopy protects the caller (C10)

`cumulative_comparisons_generated_by_blocking_rules`
(src/splink/analyse_blocking.py lines 37-145) mutates linker settings, but
only after `linker = deepcopy(linker)`.  Python reference semantics are
modelled with an explicit heap of linker objects. -/

/-- The settings attributes the function writes: the blocking rules, the two
retain flags, and each comparison level's `tf_adjustment_column` (flattened
into one list). -/
structure SettingsModel where
  blocking_rules_to_generate_predictions : List String
  retain_matching_columns : Bool
  retain_intermediate_calculation_columns : Bool
  tf_adjustment_columns : List (Option String)
deriving DecidableEq

/-- The linker attributes the function touches. -/
structure LinkerModel where
  settings : SettingsModel
  analyse_blocking_mode : Bool
deriving DecidableEq

/-- A heap of linker objects addressed by reference; addresses at or above
`next` are unallocated. -/
structure LinkerHeap where
  store : ℕ → Option LinkerModel
  next : ℕ

/-- Writing the result of `f` through the reference `addr` (a no-op on an
unallocated address, which Python would instead fault on). -/
def heapModify (h : LinkerHeap) (addr : ℕ) (f : LinkerModel → LinkerModel) :
    LinkerHeap :=
  { h with store := fun a => if a = addr then (h.store addr).map f
      else h.store a }

/-- `copy.deepcopy`: allocate a fresh address holding a copy of the object
at `addr`. -/
def deepcopyAlloc (h : LinkerHeap) (addr : ℕ) : LinkerHeap × ℕ :=
  (⟨fun a => if a = h.next then h.store addr else h.store a, h.next + 1⟩,
    h.next)

/-- Embedding of the linker and settings mutations of
`cumulative_comparisons_generated_by_blocking_rules`
(src/splink/analyse_blocking.py lines 37-145): deepcopy the caller's linker
(line 45), set analysis mode (line 49), replace the blocking rules when a
non-empty list is given (lines 51-53, Python truthiness), disable both
retain flags and set every level's `tf_adjustment_column` to `None` (lines
56-60), assemble the per-rule output from the pipeline's grouped rows
(`grouped` stands for the rows the SQL returns; the assembly is
`cumulative_rule_counts`), and clear analysis mode (line 143) — every write
going through the deepcopied reference.  Returns the final heap, the copy's
address and the per-rule output. -/
def cumulative_comparisons_mutations (h : LinkerHeap) (caller : ℕ)
    (blocking_rules : List String) (grouped : List (ℕ × ℕ)) :
    LinkerHeap × ℕ × List (String × ℕ) :=
  let alloc := deepcopyAlloc h caller
  let h₁ := alloc.1
  let lk_addr := alloc.2
  let h₂ := heapModify h₁ lk_addr
    (fun lk => { lk with analyse_blocking_mode := true })
  let h₃ := heapModify h₂ lk_addr
    (fun lk =>
      if blocking_rules ≠ [] then
        { lk with settings :=
          { lk.settings with
              blocking_rules_to_generate_predictions := blocking_rules } }
      else lk)
  let h₄ := heapModify h₃ lk_addr
    (fun lk => { lk with settings :=
      { lk.settings with
          retain_matching_columns := false
          retain_intermediate_calculation_columns := false
          tf_adjustment_columns :=
            lk.settings.tf_adjustment_columns.map (fun _ => none) } })
  let rules := ((h₄.store lk_addr).map
    (fun lk => lk.settings.blocking_rules_to_generate_predictions)).getD []
  let output := cumulative_rule_counts grouped rules
  let h₅ := heapModify h₄ lk_addr
    (fun lk => { lk with analyse_blocking_mode := false })
  (h₅, lk_addr, output)

/-- C10: the computation never mutates the caller's linker or its settings:
all writes go through a fresh deep copy, so the caller's object — its
blocking rules, tf_adjustment_column values and retain flags included — is
unchanged after the call, while the copy does receive the cleared analysis
mode, disabled retain flags, emptied tf columns and replaced rules. -/
theorem C10_caller_linker_unchanged (h : LinkerHeap) (caller : ℕ)
    (blocking_rules : List String) (grouped : List (ℕ × ℕ))
    (hcaller : caller < h.next) :
    ((cumulative_comparisons_mutations h caller blocking_rules
        grouped).1).store caller = h.store caller ∧
    (cumulative_comparisons_mutations h caller blocking_rules grouped).2.1
      ≠ caller ∧
    (∀ lk, h.store caller = some lk →
      ((cumulative_comparisons_mutations h caller blocking_rules
          grouped).1).store
        (cumulative_comparisons_mutations h caller blocking_rules
          grouped).2.1
      = some
        { analyse_blocking_mode := false
          settings :=
          { blocking_rules_to_generate_predictions :=
              if blocking_rules ≠ [] then blocking_rules
              else lk.settings.blocking_rules_to_generate_predictions
            retain_matching_columns := false
            retain_intermediate_calculation_columns := false
            tf_adjustment_columns :=
              lk.settings.tf_adjustment_columns.map
                (fun _ => none) } }) := by
  have hne : caller ≠ h.next := Nat.ne_of_lt hcaller
  refine ⟨?_, ?_, ?_⟩
  · simp [cumulative_comparisons_mutations, heapModify, deepcopyAlloc, hne]
  · simp [cumulative_comparisons_mutations, deepcopyAlloc]
    omega
  · intro lk hst
    by_cases hbr : blocking_rules = []
    · simp [cumulative_comparisons_mutations, heapModify, deepcopyAlloc,
        hbr, hst]
    · simp [cumulative_comparisons_mutations, heapModify, deepcopyAlloc,
        hbr, hst]

/-- Concrete heap fixture: one linker at address 0 with one blocking rule,
both retain flags set and one tf-adjusted level. -/
def wfLinkerModel : LinkerModel :=
  { settings :=
    { blocking_rules_to_generate_predictions := ["orig_rule"]
      retain_matching_columns := true
      retain_intermediate_calculation_columns := true
      tf_adjustment_columns := [some "city"] }
    analyse_blocking_mode := false }

/-- A heap holding just the fixture linker. -/
def wfHeap : LinkerHeap :=
  { store := fun a => if a = 0 then some wfLinkerModel else none, next := 1 }

/-- C10 witness: after the call on the fixture heap the caller's linker is
bit-for-bit unchanged, while the copy holds the replaced rule, disabled
flags and cleared tf column. -/
theorem C10_witness :
    (cumulative_comparisons_mutations wfHeap 0 ["new_rule"] [(0, 3)]).1.store 0
      = some wfLinkerModel ∧
    (cumulative_comparisons_mutations wfHeap 0 ["new_rule"] [(0, 3)]).1.store
        (cumulative_comparisons_mutations wfHeap 0 ["new_rule"] [(0, 3)]).2.1
      = some
        { analyse_blocking_mode := false
          settings :=
          { blocking_rules_to_generate_predictions := ["new_rule"]
            retain_matching_columns := false
            retain_intermediate_calculation_columns := false
            tf_adjustment_columns := [none] } } := by
  have H := C10_caller_linker_unchanged wfHeap 0 ["new_rule"] [(0, 3)]
    (by decide)
  constructor
  · rw [H.1]
    rfl
  · have h3 := H.2.2 wfLinkerModel rfl
    rw [h3]
    rfl

end Splink
